import Mathlib

/-!
Verification development for the `life` repository (`main.go`): a Conway's
Life variant on a toroidal grid with a two-phase (mark/resolve) transition
engine, a separable neighbor-count algorithm, and a paced game loop.

The Go source is embedded shallowly:

* `Cell` (Go `type Cell byte` with the four constants `CellEmpty = 0`,
  `CellAlive = 1`, `CellBorn = 2`, `CellDying = 3`) becomes a four-variant
  inductive type with `Cell.val` giving the byte value. Only these four
  values ever occur in the program (`RandomFill` draws from
  `rand.Intn(len(Colors)) = rand.Intn(4)`).
* `Board` (`struct { Rows []Row }`, `Row = []Cell`) becomes a structure
  holding a list of lists.
* Functions that can panic (`NewBoard` via `make` with a negative length,
  `feed` via the `default:` branch of its switch) return `Option`, with
  `none` modelling the panic/abort.
* Go byte arithmetic in `feed` never wraps: every summand is a cell value
  `≤ 3`, the three-row sums are `≤ 9` and the nine-cell sums `≤ 27 < 256`,
  and the single subtraction `... - row[j]` subtracts a term that is part
  of `tmp[j]`, hence never underflows; so plain `Nat` arithmetic (with
  truncated subtraction in the same position as Go's) is exact.
* The external randomness of `RandomFill` and the keyboard state read by
  `processInput` are inputs: the randomly filled board and the per-tick
  pressed keys are parameters of the corresponding definitions.
-/

/-- The four cell states of `type Cell byte`: `CellEmpty`, `CellAlive`,
`CellBorn`, `CellDying` (Go constants 0,1,2,3). -/
inductive Cell where
  | empty
  | alive
  | born
  | dying
deriving DecidableEq

/-- The numeric (byte) value of a cell, as used by the counting arithmetic
in `feed` (`CellEmpty = 0`, `CellAlive = 1`, `CellBorn = 2`, `CellDying = 3`). -/
def Cell.val : Cell → Nat
  | .empty => 0
  | .alive => 1
  | .born => 2
  | .dying => 3

/-- Go `type Row []Cell`. -/
abbrev Row := List Cell

/-- Go `type Board struct { Rows []Row }`. -/
structure Board where
  rows : List Row
deriving DecidableEq

/-- Row access `rows[i]`; the default is never used at in-range indices. -/
def rowAt (rows : List Row) (i : Nat) : Row := rows.getD i []

/-- Cell access `row[j]`; the default is never used at in-range indices. -/
def cellAt (row : Row) (j : Nat) : Cell := row.getD j Cell.empty

/-- A board is rectangular with width `w` when every row has length `w`
(the shape produced by `NewBoard`). -/
def Rectangular (b : Board) (w : Nat) : Prop := ∀ r ∈ b.rows, r.length = w

/-- Every cell of the board is steady (`CellEmpty` or `CellAlive`). -/
def AllSteady (b : Board) : Prop :=
  ∀ r ∈ b.rows, ∀ c ∈ r, c = Cell.empty ∨ c = Cell.alive

/-- Go `func NewBoard(nColumns, nRows int) *Board`: builds `nRows` rows of
`nColumns` cells, all `CellEmpty`. `make([]Row, nRows)` panics when
`nRows < 0`; `make(Row, nColumns)` panics when `nColumns < 0`, but that
`make` only runs inside the loop body, i.e. only when `nRows > 0`.
A panic is modelled as `none`. -/
def NewBoard (nColumns nRows : Int) : Option Board :=
  if nRows < 0 then none
  else if 0 < nRows ∧ nColumns < 0 then none
  else some ⟨List.replicate nRows.toNat (List.replicate nColumns.toNat Cell.empty)⟩

/-- Go index wrap `i1 := i - 1; if i1 < 0 { i1 = n - 1 }` (for `int` indices,
`i - 1 < 0` iff `i = 0` when `i ≥ 0`). -/
def wrapDec (i n : Nat) : Nat := if i = 0 then n - 1 else i - 1

/-- Go index wrap `i2 := i + 1; if i2 >= n { i2 = 0 }`. -/
def wrapInc (i n : Nat) : Nat := if n ≤ i + 1 then 0 else i + 1

/-- The row-sum pass of `feed`: `tmp[j] = row[j] + rows[i1][j] + rows[i2][j]`
with toroidal row wrap; `tmp` depends only on `(i, j)`, so it is expressed
as a function instead of the reused buffer. -/
def tmpVal (rows : List Row) (i j : Nat) : Nat :=
  (cellAt (rowAt rows i) j).val
    + (cellAt (rowAt rows (wrapDec i rows.length)) j).val
    + (cellAt (rowAt rows (wrapInc i rows.length)) j).val

/-- The column-sum pass of `feed`:
`crow[j] = tmp[j] + tmp[j1] + tmp[j2] - row[j]` with toroidal column wrap
over `len(tmp) = len(rows[0])`. All nine surrounding cells are counted and
the central one is subtracted. The `Nat` subtraction is exact because
`tmp[j]` contains `row[j]` as a summand. -/
def countVal (rows : List Row) (i j : Nat) : Nat :=
  tmpVal rows i j
    + tmpVal rows i (wrapDec j (rowAt rows 0).length)
    + tmpVal rows i (wrapInc j (rowAt rows 0).length)
    - (cellAt (rowAt rows i) j).val

/-- One cell of the final sweep of `feed`: the Life rule on steady cells,
`default:` panic (`none`) on transitional cells. -/
def markCell (cell : Cell) (nbrs : Nat) : Option Cell :=
  match cell with
  | .empty => some (if nbrs = 3 then Cell.born else Cell.empty)
  | .alive => some (if nbrs < 2 ∨ 3 < nbrs then Cell.dying else Cell.alive)
  | _ => none

/-- Maps an option-valued function over a list, failing (Go: panicking) as
soon as one element fails. -/
def mapOpt (f : α → Option β) : List α → Option (List β)
  | [] => some []
  | a :: as =>
    match f a with
    | none => none
    | some b =>
      match mapOpt f as with
      | none => none
      | some bs => some (b :: bs)

/-- Go `func (g *Game) feed() error`, acting on the board: first the
separable count (`countVal` fuses the `tmp` and `crow` passes, which read
only the original cells), then the final sweep rewriting each cell by
`markCell`; `none` models the `panic` on a transitional cell. The sweep
reads each original cell once, so the in-place Go mutation is pure here. -/
def feed (b : Board) : Option Board :=
  Option.map Board.mk
    (mapOpt (fun i =>
        mapOpt (fun j => markCell (cellAt (rowAt b.rows i) j) (countVal b.rows i j))
          (List.range (rowAt b.rows i).length))
      (List.range b.rows.length))

/-- One cell of `lifeOn`: `CellEmpty, CellDying → CellEmpty`;
`CellBorn, CellAlive → CellAlive`. The Go `default:` panic branch is
unreachable, since the four cases cover all values of the four-variant
`Cell`. -/
def lifeCell : Cell → Cell
  | .empty => Cell.empty
  | .dying => Cell.empty
  | .born => Cell.alive
  | .alive => Cell.alive

/-- Go `func (g *Game) lifeOn() error`, acting on the board: collapses every
cell to its steady state. The `empty`/`filled` tallies are only logged and
are not part of the state, so they are omitted. -/
def lifeOn (b : Board) : Board :=
  ⟨b.rows.map (fun row => row.map lifeCell)⟩

/-- Go `MaxTPS = 60`. -/
def MaxTPS : Int := 60

/-- Go `type Game struct` (the board, the phase flag, the pause flag and the
speed). -/
structure Game where
  board : Board
  feedPhase : Bool
  paused : Bool
  speed : Int
deriving DecidableEq

/-- Go `func NewGame(nColumns, nRows int) *Game`: the board is created and
then `RandomFill`ed; the randomness is external, so the filled board (whose
cells are arbitrary members of the four-value `Cell` domain) is a
parameter. `FeedPhase` and `Paused` start `false`, `Speed` starts at 10. -/
def NewGame (randomBoard : Board) : Game :=
  { board := randomBoard, feedPhase := false, paused := false, speed := 10 }

/-- The keyboard state read by `processInput` during one tick
(`ebiten.IsKeyPressed` for Space, Left, Right). -/
structure Input where
  space : Bool
  left : Bool
  right : Bool
deriving DecidableEq

/-- The no-keys-pressed input. -/
def noKeys : Input := ⟨false, false, false⟩

/-- Go `func (g *Game) processInput()`: a `switch` giving Space priority
over Left over Right; Left decrements the speed and clamps it below at 1,
Right increments it and clamps it above at `MaxTPS`. (`ebiten.SetTPS` is an
external pacing side effect with no state in the core.) -/
def processInput (inp : Input) (g : Game) : Game :=
  if inp.space then { g with paused := !g.paused }
  else if inp.left then
    let s := g.speed - 1
    { g with speed := if s < 1 then 1 else s }
  else if inp.right then
    let s := g.speed + 1
    { g with speed := if MaxTPS < s then MaxTPS else s }
  else g

/-- Go `func (g *Game) Update() error`: process input; if paused, return;
otherwise toggle `FeedPhase` and run `feed` (when the old flag was `true`)
or `lifeOn` (when it was `false`). `none` propagates the panic of `feed`. -/
def update (inp : Input) (g : Game) : Option Game :=
  let g1 := processInput inp g
  if g1.paused then some g1
  else
    let fp := g1.feedPhase
    let g2 := { g1 with feedPhase := !fp }
    if fp then Option.map (fun b => { g2 with board := b }) (feed g2.board)
    else some { g2 with board := lifeOn g2.board }

/-- The two sub-phases of the transition engine. -/
inductive SubPhase where
  | mark
  | resolve
deriving DecidableEq

/-- Which sub-phase a call to `Update` runs: after `processInput`, nothing
while paused, otherwise `feed` (mark) when the flag is set and `lifeOn`
(resolve) when it is not — the branch `if fp { return g.feed() };
return g.lifeOn()`. -/
def phaseRun (inp : Input) (g : Game) : Option SubPhase :=
  let g1 := processInput inp g
  if g1.paused then none
  else if g1.feedPhase then some SubPhase.mark else some SubPhase.resolve

/-- Runs `n` ticks of `update` from `g`, feeding the keyboard state
`keys k` into tick `k`; `none` once any tick panics. -/
def runTicks (keys : Nat → Input) (g : Game) : Nat → Option Game
  | 0 => some g
  | n + 1 =>
    match runTicks keys g n with
    | none => none
    | some g1 => update (keys n) g1

/-- Modelled from the spec (§8 "Neighbor-count correctness", the reference
side of the refinement claim): the naive 8-neighbor scan with toroidal
wrap, summing the values of the eight surrounding cells at offsets
`±1` in each coordinate taken modulo the grid dimensions. -/
def naiveCount (rows : List Row) (i j : Nat) : Nat :=
  let h := rows.length
  let w := (rowAt rows 0).length
  let up := (i + h - 1) % h
  let dn := (i + 1) % h
  let lf := (j + w - 1) % w
  let rt := (j + 1) % w
  (cellAt (rowAt rows up) lf).val + (cellAt (rowAt rows up) j).val
    + (cellAt (rowAt rows up) rt).val
    + (cellAt (rowAt rows i) lf).val + (cellAt (rowAt rows i) rt).val
    + (cellAt (rowAt rows dn) lf).val + (cellAt (rowAt rows dn) j).val
    + (cellAt (rowAt rows dn) rt).val

instance (b : Board) (w : Nat) : Decidable (Rectangular b w) :=
  inferInstanceAs (Decidable (∀ r ∈ b.rows, r.length = w))

instance (b : Board) : Decidable (AllSteady b) :=
  inferInstanceAs (Decidable (∀ r ∈ b.rows, ∀ c ∈ r, c = Cell.empty ∨ c = Cell.alive))

/-- A 4-row, 5-column board whose only live cell is at `(0,0)`, used to
exhibit the toroidal wrap at the far corners. -/
def cornerBoard : Board :=
  ⟨[[Cell.alive, Cell.empty, Cell.empty, Cell.empty, Cell.empty],
    [Cell.empty, Cell.empty, Cell.empty, Cell.empty, Cell.empty],
    [Cell.empty, Cell.empty, Cell.empty, Cell.empty, Cell.empty],
    [Cell.empty, Cell.empty, Cell.empty, Cell.empty, Cell.empty]]⟩

/-- The 5×5 blinker scenario of §8: all `Empty` except three `Alive` cells
at row 2, columns 1–3. -/
def blinkerBoard : Board :=
  ⟨[[Cell.empty, Cell.empty, Cell.empty, Cell.empty, Cell.empty],
    [Cell.empty, Cell.empty, Cell.empty, Cell.empty, Cell.empty],
    [Cell.empty, Cell.alive, Cell.alive, Cell.alive, Cell.empty],
    [Cell.empty, Cell.empty, Cell.empty, Cell.empty, Cell.empty],
    [Cell.empty, Cell.empty, Cell.empty, Cell.empty, Cell.empty]]⟩

/-- The blinker board after one mark sub-phase: the two end cells of the
blinker (1 live neighbor each) are `Dying`, the center cell (2 live
neighbors) stays `Alive`, and `(1,2)`, `(3,2)` (3 live neighbors each)
are `Born`. -/
def blinkerMarked : Board :=
  ⟨[[Cell.empty, Cell.empty, Cell.empty, Cell.empty, Cell.empty],
    [Cell.empty, Cell.empty, Cell.born, Cell.empty, Cell.empty],
    [Cell.empty, Cell.dying, Cell.alive, Cell.dying, Cell.empty],
    [Cell.empty, Cell.empty, Cell.born, Cell.empty, Cell.empty],
    [Cell.empty, Cell.empty, Cell.empty, Cell.empty, Cell.empty]]⟩

/-- The blinker board after the following resolve sub-phase: a vertical
`Alive` triple at column 2, rows 1–3. -/
def blinkerFinal : Board :=
  ⟨[[Cell.empty, Cell.empty, Cell.empty, Cell.empty, Cell.empty],
    [Cell.empty, Cell.empty, Cell.alive, Cell.empty, Cell.empty],
    [Cell.empty, Cell.empty, Cell.alive, Cell.empty, Cell.empty],
    [Cell.empty, Cell.empty, Cell.alive, Cell.empty, Cell.empty],
    [Cell.empty, Cell.empty, Cell.empty, Cell.empty, Cell.empty]]⟩

/-- A 1×1 all-empty board, used as a concrete random fill. -/
def oneCellBoard : Board := ⟨[[Cell.empty]]⟩

/-- A 1×1 board holding a transitional cell. -/
def bornBoard : Board := ⟨[[Cell.born]]⟩

/-- A concrete paused game whose board holds a transitional cell. -/
def pausedDemo : Game := { board := bornBoard, feedPhase := false, paused := true, speed := 10 }

/-- A concrete 2×2 steady board. -/
def steadyDemo : Board :=
  ⟨[[Cell.alive, Cell.empty], [Cell.empty, Cell.alive]]⟩

/-! ### Basic lemmas about the embedding -/

theorem mapOpt_length {α β : Type} {f : α → Option β} : ∀ {l : List α} {m : List β},
    mapOpt f l = some m → m.length = l.length := by
  intro l
  induction l with
  | nil => intro m h; simp [mapOpt] at h; simp [← h]
  | cons a as ih =>
    intro m h
    simp only [mapOpt] at h
    cases hfa : f a with
    | none => rw [hfa] at h; exact absurd h (by simp)
    | some b =>
      rw [hfa] at h
      cases hrec : mapOpt f as with
      | none => rw [hrec] at h; exact absurd h (by simp)
      | some bs =>
        rw [hrec] at h
        cases h
        simpa using ih hrec

theorem mapOpt_get {α β : Type} {f : α → Option β} : ∀ {l : List α} {m : List β},
    mapOpt f l = some m → ∀ (k : Nat) (hk : k < l.length) (hk2 : k < m.length),
      f (l.get ⟨k, hk⟩) = some (m.get ⟨k, hk2⟩) := by
  intro l
  induction l with
  | nil => intro m _ k hk; exact absurd hk (by simp)
  | cons a as ih =>
    intro m h k hk hk2
    simp only [mapOpt] at h
    cases hfa : f a with
    | none => rw [hfa] at h; exact absurd h (by simp)
    | some b =>
      rw [hfa] at h
      cases hrec : mapOpt f as with
      | none => rw [hrec] at h; exact absurd h (by simp)
      | some bs =>
        rw [hrec] at h
        cases h
        match k with
        | 0 => simpa using hfa
        | k' + 1 => exact ih hrec k' (by simpa using hk) (by simpa using hk2)

theorem mapOpt_isSome {α β : Type} {f : α → Option β} : ∀ {l : List α},
    (∀ a ∈ l, ∃ b, f a = some b) → ∃ m, mapOpt f l = some m := by
  intro l
  induction l with
  | nil => intro _; exact ⟨[], rfl⟩
  | cons a as ih =>
    intro h
    obtain ⟨b, hb⟩ := h a (by simp)
    obtain ⟨m, hm⟩ := ih (fun x hx => h x (by simp [hx]))
    exact ⟨b :: m, by simp only [mapOpt, hb, hm]⟩

theorem mapOpt_none {α β : Type} {f : α → Option β} {a : α} : ∀ {l : List α},
    a ∈ l → f a = none → mapOpt f l = none := by
  intro l
  induction l with
  | nil => intro h; exact absurd h (by simp)
  | cons x xs ih =>
    intro hmem hfa
    rcases List.mem_cons.mp hmem with heq | hmem2
    · subst heq; simp only [mapOpt, hfa]
    · simp only [mapOpt]
      cases hfx : f x with
      | none => rfl
      | some b => rw [ih hmem2 hfa]

theorem rowAt_eq_get (rows : List Row) (i : Nat) (h : i < rows.length) :
    rowAt rows i = rows.get ⟨i, h⟩ := by
  rw [rowAt, List.getD_eq_getElem rows [] h, List.get_eq_getElem]

theorem rowAt_mem (rows : List Row) (i : Nat) (h : i < rows.length) :
    rowAt rows i ∈ rows := by
  rw [rowAt_eq_get rows i h]
  exact List.get_mem rows i h

theorem cellAt_eq_get (row : Row) (j : Nat) (h : j < row.length) :
    cellAt row j = row.get ⟨j, h⟩ := by
  rw [cellAt, List.getD_eq_getElem row Cell.empty h, List.get_eq_getElem]

theorem cellAt_mem (row : Row) (j : Nat) (h : j < row.length) :
    cellAt row j ∈ row := by
  rw [cellAt_eq_get row j h]
  exact List.get_mem row j h

theorem wrapDec_eq_mod (i n : Nat) (hi : i < n) : wrapDec i n = (i + n - 1) % n := by
  unfold wrapDec
  by_cases h0 : i = 0
  · subst h0
    rw [if_pos rfl, Nat.mod_eq_of_lt (show 0 + n - 1 < n by omega)]
    omega
  · rw [if_neg h0]
    have harith : i + n - 1 = (i - 1) + n := by omega
    rw [harith, Nat.add_mod_right, Nat.mod_eq_of_lt (by omega)]

theorem wrapInc_eq_mod (i n : Nat) (hi : i < n) : wrapInc i n = (i + 1) % n := by
  unfold wrapInc
  by_cases h0 : n ≤ i + 1
  · have heq : i + 1 = n := by omega
    rw [if_pos h0, heq, Nat.mod_self]
  · rw [if_neg h0, Nat.mod_eq_of_lt (by omega)]

theorem rowAt_zero_length (rows : List Row) (w : Nat) (hh : 0 < rows.length)
    (hrect : ∀ r ∈ rows, r.length = w) : (rowAt rows 0).length = w :=
  hrect _ (rowAt_mem rows 0 hh)

/-- The separable row-then-column summation of `feed` computes exactly the
naive toroidal 8-neighbor sum, on any rectangular grid and for any cell
values. -/
theorem countVal_eq_naiveCount (rows : List Row) (w : Nat)
    (hrect : ∀ r ∈ rows, r.length = w) (i j : Nat)
    (hi : i < rows.length) (hj : j < w) :
    countVal rows i j = naiveCount rows i j := by
  have hh : 0 < rows.length := Nat.pos_of_ne_zero (by
    intro hlen
    rw [hlen] at hi
    exact absurd hi (by omega))
  have hw0 : (rowAt rows 0).length = w := rowAt_zero_length rows w hh hrect
  simp only [countVal, tmpVal, naiveCount, hw0,
    wrapDec_eq_mod i rows.length hi, wrapInc_eq_mod i rows.length hi,
    wrapDec_eq_mod j w hj, wrapInc_eq_mod j w hj]
  omega

theorem range_get (n k : Nat) (hk : k < (List.range n).length) :
    (List.range n).get ⟨k, hk⟩ = k := by
  rw [List.get_eq_getElem]
  exact List.getElem_range k hk

theorem markCell_isSome_of_steady (c : Cell) (n : Nat)
    (h : c = Cell.empty ∨ c = Cell.alive) : ∃ c2, markCell c n = some c2 := by
  rcases h with h | h <;> subst h <;> exact ⟨_, rfl⟩

theorem feed_isSome (b : Board) (hsteady : AllSteady b) : ∃ b2, feed b = some b2 := by
  have h1 : ∀ i ∈ List.range b.rows.length, ∃ ri,
      mapOpt (fun j => markCell (cellAt (rowAt b.rows i) j) (countVal b.rows i j))
        (List.range (rowAt b.rows i).length) = some ri := by
    intro i hi
    apply mapOpt_isSome
    intro j hj
    exact markCell_isSome_of_steady _ _
      (hsteady _ (rowAt_mem _ _ (List.mem_range.mp hi)) _
        (cellAt_mem _ _ (List.mem_range.mp hj)))
  obtain ⟨m, hm⟩ := mapOpt_isSome h1
  exact ⟨⟨m⟩, by rw [feed, hm]; rfl⟩

theorem feed_some_inv (b b2 : Board) (h : feed b = some b2) :
    mapOpt (fun i =>
        mapOpt (fun j => markCell (cellAt (rowAt b.rows i) j) (countVal b.rows i j))
          (List.range (rowAt b.rows i).length))
      (List.range b.rows.length) = some b2.rows := by
  unfold feed at h
  cases hmap : mapOpt (fun i =>
      mapOpt (fun j => markCell (cellAt (rowAt b.rows i) j) (countVal b.rows i j))
        (List.range (rowAt b.rows i).length))
    (List.range b.rows.length) with
  | none => rw [hmap] at h; exact absurd h (by simp)
  | some m =>
    rw [hmap] at h
    simp only [Option.map_some'] at h
    obtain rfl : Board.mk m = b2 := by injection h
    rfl

theorem feed_length (b b2 : Board) (h : feed b = some b2) :
    b2.rows.length = b.rows.length := by
  have := mapOpt_length (feed_some_inv b b2 h)
  simpa using this

theorem feed_row (b b2 : Board) (h : feed b = some b2) (i : Nat) (hi : i < b.rows.length) :
    mapOpt (fun j => markCell (cellAt (rowAt b.rows i) j) (countVal b.rows i j))
      (List.range (rowAt b.rows i).length) = some (rowAt b2.rows i) := by
  have hinv := feed_some_inv b b2 h
  have hlen := feed_length b b2 h
  have hi2 : i < (List.range b.rows.length).length := by simpa using hi
  have hi3 : i < b2.rows.length := by omega
  have hget := mapOpt_get hinv i hi2 hi3
  rw [range_get] at hget
  rw [rowAt_eq_get b2.rows i hi3]
  exact hget

theorem feed_row_length (b b2 : Board) (h : feed b = some b2) (i : Nat)
    (hi : i < b.rows.length) :
    (rowAt b2.rows i).length = (rowAt b.rows i).length := by
  have := mapOpt_length (feed_row b b2 h i hi)
  simpa using this

theorem feed_cell (b b2 : Board) (h : feed b = some b2) (i j : Nat)
    (hi : i < b.rows.length) (hj : j < (rowAt b.rows i).length) :
    markCell (cellAt (rowAt b.rows i) j) (countVal b.rows i j)
      = some (cellAt (rowAt b2.rows i) j) := by
  have hrow := feed_row b b2 h i hi
  have hlen := feed_row_length b b2 h i hi
  have hj2 : j < (List.range (rowAt b.rows i).length).length := by simpa using hj
  have hj3 : j < (rowAt b2.rows i).length := by omega
  have hget := mapOpt_get hrow j hj2 hj3
  rw [range_get] at hget
  rw [cellAt_eq_get (rowAt b2.rows i) j hj3]
  exact hget

theorem feed_none_of_bad_cell (b : Board) (i j : Nat) (hi : i < b.rows.length)
    (hj : j < (rowAt b.rows i).length)
    (hbad : cellAt (rowAt b.rows i) j = Cell.born ∨ cellAt (rowAt b.rows i) j = Cell.dying) :
    feed b = none := by
  have hfail : markCell (cellAt (rowAt b.rows i) j) (countVal b.rows i j) = none := by
    rcases hbad with hb | hb <;> rw [hb] <;> rfl
  have hrowfail : mapOpt (fun j2 => markCell (cellAt (rowAt b.rows i) j2) (countVal b.rows i j2))
      (List.range (rowAt b.rows i).length) = none :=
    mapOpt_none (List.mem_range.mpr hj) hfail
  have houterfail : mapOpt (fun i2 =>
      mapOpt (fun j2 => markCell (cellAt (rowAt b.rows i2) j2) (countVal b.rows i2 j2))
        (List.range (rowAt b.rows i2).length))
      (List.range b.rows.length) = none :=
    mapOpt_none (List.mem_range.mpr hi) hrowfail
  rw [feed, houterfail]
  rfl

theorem map_self_of_id {α : Type} (f : α → α) : ∀ (l : List α),
    (∀ x ∈ l, f x = x) → l.map f = l := by
  intro l
  induction l with
  | nil => intro _; rfl
  | cons x xs ih =>
    intro h
    rw [List.map_cons, h x (by simp), ih (fun y hy => h y (by simp [hy]))]

theorem lifeCell_steady (c : Cell) : lifeCell c = Cell.empty ∨ lifeCell c = Cell.alive := by
  cases c <;> simp [lifeCell]

theorem lifeOn_allSteady (b : Board) : AllSteady (lifeOn b) := by
  intro r hr c hc
  simp only [lifeOn, List.mem_map] at hr
  obtain ⟨r0, _, rfl⟩ := hr
  simp only [List.mem_map] at hc
  obtain ⟨c0, _, rfl⟩ := hc
  exact lifeCell_steady c0

theorem lifeCell_id_of_steady (c : Cell) (h : c = Cell.empty ∨ c = Cell.alive) :
    lifeCell c = c := by
  rcases h with h | h <;> subst h <;> rfl

theorem lifeOn_id_of_allSteady (b : Board) (h : AllSteady b) : lifeOn b = b := by
  cases b with
  | mk rows =>
    unfold lifeOn
    congr 1
    apply map_self_of_id
    intro r hr
    apply map_self_of_id
    intro c hc
    exact lifeCell_id_of_steady c (h r hr c hc)

theorem processInput_board (inp : Input) (g : Game) :
    (processInput inp g).board = g.board := by
  unfold processInput
  by_cases hs : inp.space
  · simp [hs]
  · by_cases hl : inp.left
    · simp [hs, hl]
    · by_cases hr : inp.right
      · simp [hs, hl, hr]
      · simp [hs, hl, hr]

theorem processInput_feedPhase (inp : Input) (g : Game) :
    (processInput inp g).feedPhase = g.feedPhase := by
  unfold processInput
  by_cases hs : inp.space
  · simp [hs]
  · by_cases hl : inp.left
    · simp [hs, hl]
    · by_cases hr : inp.right
      · simp [hs, hl, hr]
      · simp [hs, hl, hr]

theorem processInput_paused_of_noSpace (inp : Input) (g : Game) (hs : inp.space = false) :
    (processInput inp g).paused = g.paused := by
  unfold processInput
  by_cases hl : inp.left
  · simp [hs, hl]
  · by_cases hr : inp.right
    · simp [hs, hl, hr]
    · simp [hs, hl, hr]

theorem processInput_noKeys (g : Game) : processInput noKeys g = g := rfl

/-- The reachability invariant of the game loop: when the flag says the next
sub-phase is `feed`, the board holds only steady cells. -/
def LoopInv (g : Game) : Prop := g.feedPhase = true → AllSteady g.board

theorem update_some_inv (inp : Input) (g g2 : Game) (h : update inp g = some g2)
    (hg : LoopInv g) : LoopInv g2 := by
  unfold update at h
  by_cases hp : (processInput inp g).paused
  · rw [if_pos hp] at h
    obtain rfl : processInput inp g = g2 := by injection h
    intro hfp
    rw [processInput_board]
    exact hg (by rw [← processInput_feedPhase inp g]; exact hfp)
  · rw [if_neg hp] at h
    by_cases hfp : (processInput inp g).feedPhase
    · rw [if_pos hfp] at h
      cases hfeed : feed (processInput inp g).board with
      | none => rw [hfeed] at h; exact absurd h (by simp)
      | some b2 =>
        rw [hfeed] at h
        simp only [Option.map_some'] at h
        obtain rfl : _ = g2 := by injection h
        intro hbad
        simp [hfp] at hbad
    · rw [if_neg hfp] at h
      simp only [Bool.not_eq_true] at hfp
      rw [hfp] at h
      obtain rfl : _ = g2 := by injection h
      intro _
      exact lifeOn_allSteady _

theorem update_isSome_of_inv (inp : Input) (g : Game) (hg : LoopInv g) :
    ∃ g2, update inp g = some g2 := by
  unfold update
  by_cases hp : (processInput inp g).paused
  · rw [if_pos hp]
    exact ⟨_, rfl⟩
  · rw [if_neg hp]
    by_cases hfp : (processInput inp g).feedPhase
    · rw [if_pos hfp]
      have hsteady : AllSteady (processInput inp g).board := by
        rw [processInput_board]
        exact hg (by rw [← processInput_feedPhase inp g]; exact hfp)
      obtain ⟨b2, hb2⟩ := feed_isSome _ hsteady
      exact ⟨_, by rw [hb2]; rfl⟩
    · rw [if_neg hfp]
      simp only [Bool.not_eq_true] at hfp
      rw [hfp]
      exact ⟨_, rfl⟩

theorem newGame_inv (b : Board) : LoopInv (NewGame b) := by
  intro h
  exact absurd h (by simp [NewGame])

theorem runTicks_some_inv (keys : Nat → Input) (b : Board) :
    ∀ n, ∃ g, runTicks keys (NewGame b) n = some g ∧ LoopInv g := by
  intro n
  induction n with
  | zero => exact ⟨NewGame b, rfl, newGame_inv b⟩
  | succ n ih =>
    obtain ⟨g, hg, hinv⟩ := ih
    obtain ⟨g2, hg2⟩ := update_isSome_of_inv (keys n) g hinv
    refine ⟨g2, ?_, update_some_inv (keys n) g g2 hg2 hinv⟩
    unfold runTicks
    rw [hg]
    exact hg2

theorem update_paused_eq (inp : Input) (g : Game)
    (hp : (processInput inp g).paused = true) :
    update inp g = some (processInput inp g) := by
  simp [update, hp]

theorem update_resolve_eq (inp : Input) (g : Game)
    (hp : (processInput inp g).paused = false)
    (hfp : (processInput inp g).feedPhase = false) :
    update inp g
      = some ⟨lifeOn (processInput inp g).board, true, false, (processInput inp g).speed⟩ := by
  simp [update, hp, hfp]

theorem update_mark_eq (inp : Input) (g : Game)
    (hp : (processInput inp g).paused = false)
    (hfp : (processInput inp g).feedPhase = true) :
    update inp g
      = Option.map (fun b2 => (⟨b2, false, false, (processInput inp g).speed⟩ : Game))
          (feed (processInput inp g).board) := by
  simp [update, hp, hfp]

theorem phaseRun_eq (inp : Input) (g : Game) :
    phaseRun inp g = if (processInput inp g).paused then none
      else if (processInput inp g).feedPhase then some SubPhase.mark
      else some SubPhase.resolve := rfl

theorem runTicks_noKeys_spec (b : Board) :
    ∀ n, ∃ g, runTicks (fun _ => noKeys) (NewGame b) n = some g ∧
      g.paused = false ∧ g.feedPhase = decide (n % 2 = 1) ∧ LoopInv g := by
  intro n
  induction n with
  | zero => exact ⟨NewGame b, rfl, rfl, rfl, newGame_inv b⟩
  | succ n ih =>
    obtain ⟨g, hrun, hpause, hphase, hinv⟩ := ih
    have hstep : runTicks (fun _ => noKeys) (NewGame b) (n + 1) = update noKeys g := by
      unfold runTicks
      rw [hrun]
    have hp2 : (processInput noKeys g).paused = false := by
      rw [processInput_noKeys]; exact hpause
    by_cases hodd : n % 2 = 1
    · have hfp : (processInput noKeys g).feedPhase = true := by
        rw [processInput_noKeys, hphase, hodd]
        rfl
      have hsteady : AllSteady g.board := hinv (by rw [hphase, hodd]; rfl)
      obtain ⟨b2, hb2⟩ := feed_isSome g.board hsteady
      have hupd := update_mark_eq noKeys g hp2 hfp
      rw [processInput_noKeys] at hupd
      rw [hb2] at hupd
      simp only [Option.map_some'] at hupd
      refine ⟨_, by rw [hstep, hupd], rfl, ?_, ?_⟩
      · have : (n + 1) % 2 = 0 := by omega
        rw [this]
        rfl
      · intro hbad
        exact absurd hbad (by simp)
    · have heven : n % 2 = 0 := by omega
      have hfp : (processInput noKeys g).feedPhase = false := by
        rw [processInput_noKeys, hphase]
        exact decide_eq_false hodd
      have hupd := update_resolve_eq noKeys g hp2 hfp
      rw [processInput_noKeys] at hupd
      refine ⟨_, by rw [hstep, hupd], rfl, ?_, ?_⟩
      · have : (n + 1) % 2 = 1 := by omega
        rw [this]
        rfl
      · intro _
        exact lifeOn_allSteady g.board

/-! ### Claims -/

/-- C1: on every rectangular grid whose cells are all `Empty` or `Alive`,
the count computed by `feed`'s separable row-then-column summation equals,
for every cell, the naive 8-neighbor scan with toroidal wrap; and on the
4×5 board whose only live cell is `(0,0)`, that cell is counted (exactly
once) as a neighbor of `(height-1, 0)`, `(0, width-1)` and
`(height-1, width-1)`. -/
theorem C1_separable_equals_naive :
    (∀ (b : Board) (w : Nat), Rectangular b w → AllSteady b →
        ∀ i j, i < b.rows.length → j < w →
          countVal b.rows i j = naiveCount b.rows i j)
    ∧ countVal cornerBoard.rows 3 0 = 1
    ∧ countVal cornerBoard.rows 0 4 = 1
    ∧ countVal cornerBoard.rows 3 4 = 1 := by
  refine ⟨?_, by decide, by decide, by decide⟩
  intro b w hrect _ i j hi hj
  exact countVal_eq_naiveCount b.rows w hrect i j hi hj

/-- Witness for C1 at a concrete steady 2×2 board and cell. -/
theorem C1_separable_equals_naive_witness :
    Rectangular steadyDemo 2 ∧ AllSteady steadyDemo ∧
      countVal steadyDemo.rows 0 0 = naiveCount steadyDemo.rows 0 0 :=
  ⟨by decide, by decide,
    C1_separable_equals_naive.1 steadyDemo 2 (by decide) (by decide) 0 0 (by decide) (by decide)⟩

/-- C2: in the mark sub-phase on an all-steady rectangular grid, an `Empty`
cell with (naive toroidal) neighbor count exactly 3 becomes `Born` and
otherwise stays `Empty`; an `Alive` cell with count 2 or 3 stays `Alive`
and with count < 2 or > 3 becomes `Dying`. -/
theorem C2_mark_rules (b b2 : Board) (w : Nat) (hrect : Rectangular b w)
    (hsteady : AllSteady b) (hfeed : feed b = some b2) (i j : Nat)
    (hi : i < b.rows.length) (hj : j < w) :
    (cellAt (rowAt b.rows i) j = Cell.empty → naiveCount b.rows i j = 3 →
        cellAt (rowAt b2.rows i) j = Cell.born)
    ∧ (cellAt (rowAt b.rows i) j = Cell.empty → naiveCount b.rows i j ≠ 3 →
        cellAt (rowAt b2.rows i) j = Cell.empty)
    ∧ (cellAt (rowAt b.rows i) j = Cell.alive →
        (naiveCount b.rows i j = 2 ∨ naiveCount b.rows i j = 3) →
        cellAt (rowAt b2.rows i) j = Cell.alive)
    ∧ (cellAt (rowAt b.rows i) j = Cell.alive →
        (naiveCount b.rows i j < 2 ∨ 3 < naiveCount b.rows i j) →
        cellAt (rowAt b2.rows i) j = Cell.dying) := by
  have hjlen : j < (rowAt b.rows i).length := by
    rw [hrect _ (rowAt_mem b.rows i hi)]
    exact hj
  have hcell := feed_cell b b2 hfeed i j hi hjlen
  rw [countVal_eq_naiveCount b.rows w hrect i j hi hj] at hcell
  refine ⟨?_, ?_, ?_, ?_⟩
  · intro hc hn
    rw [hc] at hcell
    simp only [markCell] at hcell
    rw [if_pos hn] at hcell
    exact (Option.some.inj hcell).symm
  · intro hc hn
    rw [hc] at hcell
    simp only [markCell] at hcell
    rw [if_neg hn] at hcell
    exact (Option.some.inj hcell).symm
  · intro hc hn
    rw [hc] at hcell
    simp only [markCell] at hcell
    rw [if_neg (show ¬(naiveCount b.rows i j < 2 ∨ 3 < naiveCount b.rows i j) by
      rcases hn with h | h <;> omega)] at hcell
    exact (Option.some.inj hcell).symm
  · intro hc hn
    rw [hc] at hcell
    simp only [markCell] at hcell
    rw [if_pos hn] at hcell
    exact (Option.some.inj hcell).symm

/-- Witness for C2 at the blinker board, cell `(1,2)`: empty with 3 live
neighbors, marked `Born`. -/
theorem C2_mark_rules_witness :
    Rectangular blinkerBoard 5 ∧ AllSteady blinkerBoard ∧
      feed blinkerBoard = some blinkerMarked ∧
      cellAt (rowAt blinkerBoard.rows 1) 2 = Cell.empty ∧
      naiveCount blinkerBoard.rows 1 2 = 3 ∧
      cellAt (rowAt blinkerMarked.rows 1) 2 = Cell.born :=
  ⟨by decide, by decide, by decide, by decide, by decide,
    (C2_mark_rules blinkerBoard blinkerMarked 5 (by decide) (by decide) (by decide) 1 2
        (by decide) (by decide)).1 (by decide) (by decide)⟩

/-- C3 counterexample: from the initial state (`FeedPhase = false`), the
first unpaused tick runs the resolve sub-phase (`lifeOn`), not a mark
sub-phase as the claim states. -/
theorem C3_first_tick_is_resolve :
    phaseRun noKeys (NewGame oneCellBoard) = some SubPhase.resolve ∧
      some SubPhase.resolve ≠ some SubPhase.mark := by decide

/-- C3 (amended): starting unpaused from the initial state, successive
ticks strictly alternate sub-phases — but beginning with a resolve
sub-phase on the first tick (the flag starts at `false` and alternates
Resolve → Mark → Resolve → …): after `n` ticks the flag is set exactly
when `n` is odd, and tick `n+1` runs mark exactly when `n` is odd. -/
theorem C3_phase_alternation (b : Board) (n : Nat) :
    ∃ g, runTicks (fun _ => noKeys) (NewGame b) n = some g ∧
      g.feedPhase = decide (n % 2 = 1) ∧
      phaseRun noKeys g
        = (if n % 2 = 1 then some SubPhase.mark else some SubPhase.resolve) := by
  obtain ⟨g, hrun, hpause, hphase, _⟩ := runTicks_noKeys_spec b n
  refine ⟨g, hrun, hphase, ?_⟩
  rw [phaseRun_eq, processInput_noKeys, hpause, hphase]
  by_cases hodd : n % 2 = 1
  · rw [if_pos hodd]
    simp [hodd]
  · rw [if_neg hodd]
    simp [hodd]

/-- C4 counterexample: after one mark sub-phase on the 5×5 blinker, the
center blinker cell `(2,2)` has 2 live neighbors and stays `Alive` — it
does not become `Dying` as the claim states for all three blinker cells. -/
theorem C4_center_cell_stays_alive :
    feed blinkerBoard = some blinkerMarked ∧
      cellAt (rowAt blinkerMarked.rows 2) 2 = Cell.alive ∧
      Cell.alive ≠ Cell.dying := by decide

/-- C4 (amended): on the 5×5 blinker board, one mark sub-phase turns the
two end blinker cells (1 live neighbor each) `Dying`, leaves the center
blinker cell (2 live neighbors) `Alive`, turns `(1,2)` and `(3,2)` (3 live
neighbors each) `Born`, and leaves all other cells `Empty`; the following
resolve sub-phase yields the grid that is all `Empty` except a vertical
`Alive` triple at column 2, rows 1–3. -/
theorem C4_blinker_scenario :
    feed blinkerBoard = some blinkerMarked ∧ lifeOn blinkerMarked = blinkerFinal := by
  exact ⟨by decide, by decide⟩

/-- C5: running the mark sub-phase (`feed`) on any grid containing at least
one `Born` or `Dying` cell aborts (the Go code panics, modelled by `none`)
instead of completing. -/
theorem C5_feed_aborts_on_transitional (b : Board)
    (h : ∃ r ∈ b.rows, ∃ c ∈ r, c = Cell.born ∨ c = Cell.dying) :
    feed b = none := by
  obtain ⟨r, hr, c, hc, hbad⟩ := h
  obtain ⟨⟨i, hi⟩, hri⟩ := List.mem_iff_get.mp hr
  obtain ⟨⟨j, hj⟩, hcj⟩ := List.mem_iff_get.mp hc
  have hrow : rowAt b.rows i = r := by
    rw [rowAt_eq_get b.rows i hi, hri]
  have hjlen : j < (rowAt b.rows i).length := by
    rw [hrow]
    exact hj
  have hcell : cellAt (rowAt b.rows i) j = c := by
    rw [hrow, cellAt_eq_get r j hj, hcj]
  exact feed_none_of_bad_cell b i j hi hjlen (by rw [hcell]; exact hbad)

/-- Witness for C5 at the 1×1 board holding a `Born` cell. -/
theorem C5_feed_aborts_on_transitional_witness :
    (∃ r ∈ bornBoard.rows, ∃ c ∈ r, c = Cell.born ∨ c = Cell.dying) ∧
      feed bornBoard = none :=
  ⟨by decide, C5_feed_aborts_on_transitional bornBoard (by decide)⟩

/-- C6 counterexample: the claim says creation fails for width < 1, but
`NewBoard 0 1` (width 0, height 1) returns a degenerate grid — Go's
`make` only panics on a negative length, not on zero. -/
theorem C6_zero_width_not_rejected :
    NewBoard 0 1 = some ⟨[[]]⟩ ∧ NewBoard 0 1 ≠ none := by decide

/-- C6 (amended): for width ≥ 1 and height ≥ 1, `NewBoard` returns a grid
of those dimensions with every cell `Empty`; creation fails (a `make`
panics) exactly when the height is negative, or the height is positive and
the width negative — zero dimensions are not rejected and yield a
degenerate grid. -/
theorem C6_newBoard_construction (nColumns nRows : Int) :
    (1 ≤ nColumns → 1 ≤ nRows →
      ∃ bd, NewBoard nColumns nRows = some bd ∧
        bd.rows.length = nRows.toNat ∧ Rectangular bd nColumns.toNat ∧
        ∀ r ∈ bd.rows, ∀ c ∈ r, c = Cell.empty)
    ∧ (NewBoard nColumns nRows = none ↔ nRows < 0 ∨ (0 < nRows ∧ nColumns < 0)) := by
  constructor
  · intro hc hr
    refine ⟨⟨List.replicate nRows.toNat (List.replicate nColumns.toNat Cell.empty)⟩,
      ?_, by simp, ?_, ?_⟩
    · unfold NewBoard
      rw [if_neg (by omega), if_neg (by omega)]
    · intro r hrr
      rw [List.eq_of_mem_replicate hrr]
      simp
    · intro r hrr c hcc
      rw [List.eq_of_mem_replicate hrr] at hcc
      exact List.eq_of_mem_replicate hcc
  · unfold NewBoard
    by_cases h1 : nRows < 0
    · rw [if_pos h1]
      simp
      omega
    · rw [if_neg h1]
      by_cases h2 : 0 < nRows ∧ nColumns < 0
      · rw [if_pos h2]
        simp
        omega
      · rw [if_neg h2]
        simp
        omega

/-- Witness for C6 at width 2, height 3. -/
theorem C6_newBoard_construction_witness :
    (1:Int) ≤ 2 ∧ (1:Int) ≤ 3 ∧
      ∃ bd, NewBoard 2 3 = some bd ∧
        bd.rows.length = (3:Int).toNat ∧ Rectangular bd (2:Int).toNat ∧
        ∀ r ∈ bd.rows, ∀ c ∈ r, c = Cell.empty :=
  ⟨by decide, by decide, (C6_newBoard_construction 2 3).1 (by decide) (by decide)⟩

/-- C7: the speed starts at 10; a SpeedDown (Left) tick decrements it by 1
saturating at 1, a SpeedUp (Right) tick increments it by 1 saturating at
`MaxTPS` = 60, with no error — in particular from speed 1 SpeedDown leaves
1, and from speed 60 SpeedUp leaves 60. -/
theorem C7_speed_clamping (g : Game) (hlo : 1 ≤ g.speed) (hhi : g.speed ≤ MaxTPS) :
    (∀ bd, (NewGame bd).speed = 10)
    ∧ (processInput ⟨false, true, false⟩ g).speed
        = (if g.speed = 1 then 1 else g.speed - 1)
    ∧ (processInput ⟨false, false, true⟩ g).speed
        = (if g.speed = MaxTPS then MaxTPS else g.speed + 1) := by
  refine ⟨fun bd => rfl, ?_, ?_⟩
  · show (if g.speed - 1 < 1 then (1:Int) else g.speed - 1)
      = (if g.speed = 1 then 1 else g.speed - 1)
    split_ifs <;> omega
  · show (if MaxTPS < g.speed + 1 then MaxTPS else g.speed + 1)
      = (if g.speed = MaxTPS then MaxTPS else g.speed + 1)
    unfold MaxTPS at hhi ⊢
    split_ifs <;> omega

/-- Witness for C7 at the initial game (speed 10). -/
theorem C7_speed_clamping_witness :
    (1:Int) ≤ (NewGame oneCellBoard).speed ∧ (NewGame oneCellBoard).speed ≤ MaxTPS ∧
      (processInput ⟨false, true, false⟩ (NewGame oneCellBoard)).speed = 9 := by
  refine ⟨by decide, by decide, ?_⟩
  rw [(C7_speed_clamping (NewGame oneCellBoard) (by decide) (by decide)).2.1]
  decide

/-- C8 counterexample: from a paused state, a tick whose input presses
Space unpauses the game and immediately runs a sub-phase in that same
call to `Update` — the grid and the phase flag both change, contradicting
the claim that every tick from a paused state leaves them unchanged. -/
theorem C8_pause_toggle_tick_mutates :
    pausedDemo.paused = true ∧
      update ⟨true, false, false⟩ pausedDemo
        = some ⟨⟨[[Cell.alive]]⟩, true, false, 10⟩ ∧
      (⟨⟨[[Cell.alive]]⟩, true, false, 10⟩ : Game).board ≠ pausedDemo.board ∧
      (⟨⟨[[Cell.alive]]⟩, true, false, 10⟩ : Game).feedPhase ≠ pausedDemo.feedPhase := by
  decide

/-- C8 (amended): from a paused state, a tick whose input does not press
Space leaves the grid and the phase flag unchanged and runs no sub-phase,
while the speed-change input is still processed (the resulting state is
exactly `processInput`'s output); a tick that presses Space unpauses and
immediately runs a sub-phase. -/
theorem C8_pause_freezes (g : Game) (inp : Input) (hp : g.paused = true)
    (hs : inp.space = false) :
    update inp g = some (processInput inp g)
    ∧ (processInput inp g).board = g.board
    ∧ (processInput inp g).feedPhase = g.feedPhase
    ∧ (processInput inp g).paused = true
    ∧ phaseRun inp g = none := by
  have hpp : (processInput inp g).paused = true := by
    rw [processInput_paused_of_noSpace inp g hs, hp]
  refine ⟨update_paused_eq inp g hpp, processInput_board inp g,
    processInput_feedPhase inp g, hpp, ?_⟩
  rw [phaseRun_eq, hpp]
  simp

/-- Witness for C8 at the paused demo game with a SpeedDown input. -/
theorem C8_pause_freezes_witness :
    pausedDemo.paused = true ∧ (⟨false, true, false⟩ : Input).space = false ∧
      update ⟨false, true, false⟩ pausedDemo
        = some (processInput ⟨false, true, false⟩ pausedDemo) :=
  ⟨by decide, by decide, (C8_pause_freezes pausedDemo ⟨false, true, false⟩ rfl rfl).1⟩

/-- C9: the resolve sub-phase (`lifeOn`) leaves every all-steady grid
(no `Born`/`Dying` present) unchanged. -/
theorem C9_resolve_identity (b : Board) (h : AllSteady b) : lifeOn b = b :=
  lifeOn_id_of_allSteady b h

/-- Witness for C9 at a concrete 2×2 steady board. -/
theorem C9_resolve_identity_witness :
    AllSteady steadyDemo ∧ lifeOn steadyDemo = steadyDemo :=
  ⟨by decide, C9_resolve_identity steadyDemo (by decide)⟩

/-- C10 (implicit): in every execution from `NewGame`'s initial state
(`FeedPhase = false`, arbitrary four-valued random fill) under any
keyboard input stream, whenever a tick is about to run the mark sub-phase
(`feed`), the board holds only `Empty`/`Alive` cells — the random fill
never reaches the neighbor counter, since the first unpaused tick runs
`lifeOn`, which normalizes all four cell values, and every later `feed`
is immediately preceded by a `lifeOn`. -/
theorem C10_feed_runs_only_on_steady (keys : Nat → Input) (b : Board) (n : Nat) (g : Game)
    (hrun : runTicks keys (NewGame b) n = some g)
    (hmark : phaseRun (keys n) g = some SubPhase.mark) :
    AllSteady g.board := by
  obtain ⟨g2, hg2, hinv⟩ := runTicks_some_inv keys b n
  rw [hrun] at hg2
  obtain rfl : g = g2 := by injection hg2
  rw [phaseRun_eq] at hmark
  by_cases hpaused : (processInput (keys n) g).paused
  · rw [if_pos hpaused] at hmark
    exact absurd hmark (by simp)
  · rw [if_neg hpaused] at hmark
    by_cases hfp : (processInput (keys n) g).feedPhase
    · exact hinv (by rw [← processInput_feedPhase (keys n) g]; exact hfp)
    · rw [if_neg hfp] at hmark
      exact absurd hmark (by simp)

/-- Witness for C10: a random fill containing a `Born` cell, after one
(resolve) tick, reaches the mark sub-phase with an all-steady board. -/
theorem C10_feed_runs_only_on_steady_witness :
    runTicks (fun _ => noKeys) (NewGame bornBoard) 1
        = some ⟨⟨[[Cell.alive]]⟩, true, false, 10⟩ ∧
      phaseRun ((fun _ => noKeys) 1) (⟨⟨[[Cell.alive]]⟩, true, false, 10⟩ : Game)
        = some SubPhase.mark ∧
      AllSteady (⟨⟨[[Cell.alive]]⟩, true, false, 10⟩ : Game).board :=
  ⟨by decide, by decide,
    C10_feed_runs_only_on_steady (fun _ => noKeys) bornBoard 1
      ⟨⟨[[Cell.alive]]⟩, true, false, 10⟩ (by decide) (by decide)⟩
